import Mathlib

/-!
Shallow embedding of `Disc_Step_Sequencer/debouncer.py` (class `Debouncer`).

The Python class packs three boolean flags into one integer `self.state`
(`DEBOUNCED_STATE = 0x01`, `UNSTABLE_STATE = 0x02`, `CHANGED_STATE = 0x04`)
manipulated with `|=`, `&= ~`, `^=` and tested with `& bits != 0`.  We embed
that integer as a Lean `Int` with the same bitwise operations.  The monotonic
clock value and the raw sample read inside `update` are passed in as explicit
arguments (`now : ℚ`, `current : Bool`): in the source they come from
`time.monotonic()` and from calling the stored sample function `self.f`.
Times and the interval are rationals, standing for the real-valued seconds of
the source.
-/

namespace Debouncer

/-- Mask `Debouncer.DEBOUNCED_STATE = 0x01`. -/
def DEBOUNCED_STATE : Int := 0x01

/-- Mask `Debouncer.UNSTABLE_STATE = 0x02`. -/
def UNSTABLE_STATE : Int := 0x02

/-- Mask `Debouncer.CHANGED_STATE = 0x04`. -/
def CHANGED_STATE : Int := 0x04

/-- The mutable fields of a `Debouncer` instance: the packed flag integer
`self.state`, `self.previous_time` and `self.interval`.  The sample function
`self.f` is not stored; its successive return values are fed to `update`. -/
structure State where
  state : Int
  previous_time : ℚ
  interval : ℚ
deriving DecidableEq, Repr

/-- Method `__set_state`, performing `self.state |= bits`; Python `|` on ints is
`Int.lor`. -/
def setBits (d : State) (bits : Int) : State :=
  { d with state := Int.lor d.state bits }

/-- Method `__unset_state`, performing `self.state &= ~bits`; Python `~` and `&` on ints are
`Int.lnot`/`Int.land`. -/
def unsetBits (d : State) (bits : Int) : State :=
  { d with state := Int.land d.state (Int.lnot bits) }

/-- Method `__toggle_state`, performing `self.state ^= bits`; Python `^` on ints is
`Int.xor`. -/
def toggleBits (d : State) (bits : Int) : State :=
  { d with state := Int.xor d.state bits }

/-- Method `__get_state`, returning `(self.state & bits) != 0`. -/
def getBits (d : State) (bits : Int) : Bool :=
  Int.land d.state bits != 0

/-- Constructor `Debouncer.__init__` along the predicate path: `self.state = 0x00`; if the
raw sample function returns true at construction, set
`DEBOUNCED_STATE | UNSTABLE_STATE`; `self.previous_time = 0`; interval defaults
to `0.010` when passed as `None`.  `sample` is the one raw sample taken during
construction. -/
def init (sample : Bool) (interval? : Option ℚ) : State :=
  let d0 : State := { state := 0x00, previous_time := 0, interval := 0 }
  let d1 := if sample then setBits d0 (Int.lor DEBOUNCED_STATE UNSTABLE_STATE) else d0
  { d1 with
    previous_time := 0,
    interval := match interval? with
      | none => 1 / 100
      | some i => i }

/-- Method `Debouncer.update`: `now` is the value of `time.monotonic()` and `current`
the value of `self.f()` on this call. -/
def update (d : State) (now : ℚ) (current : Bool) : State :=
  let d1 := unsetBits d CHANGED_STATE
  if current ≠ getBits d1 UNSTABLE_STATE then
    toggleBits { d1 with previous_time := now } UNSTABLE_STATE
  else
    if now - d1.previous_time ≥ d1.interval then
      if current ≠ getBits d1 DEBOUNCED_STATE then
        setBits (toggleBits { d1 with previous_time := now } DEBOUNCED_STATE) CHANGED_STATE
      else d1
    else d1

/-- Property `value`. -/
def value (d : State) : Bool :=
  getBits d DEBOUNCED_STATE

/-- Property `rose`. -/
def rose (d : State) : Bool :=
  getBits d DEBOUNCED_STATE && getBits d CHANGED_STATE

/-- Property `fell`. -/
def fell (d : State) : Bool :=
  !getBits d DEBOUNCED_STATE && getBits d CHANGED_STATE

/-- The packed flag integer only ever holds the three low bits. -/
def StateOk (d : State) : Prop :=
  0 ≤ d.state ∧ d.state < 8

/-- The debounced flag, `__get_state(DEBOUNCED_STATE)`. -/
def debouncedOf (d : State) : Bool :=
  getBits d DEBOUNCED_STATE

/-- The unstable flag, `__get_state(UNSTABLE_STATE)`. -/
def unstableOf (d : State) : Bool :=
  getBits d UNSTABLE_STATE

/-- The changed flag, `__get_state(CHANGED_STATE)`. -/
def changedOf (d : State) : Bool :=
  getBits d CHANGED_STATE

/-- The flag integer holding exactly the three given flags. -/
def encode (de un ch : Bool) : Int :=
  (cond de 1 0) + (cond un 2 0) + (cond ch 4 0)

/-- Run `update` once per clock reading in the list, threading the state;
every call reads the same raw sample `c`. -/
def runSame (d : State) (c : Bool) : List ℚ → State
  | [] => d
  | t :: ts => runSame (update d t c) c ts

/-- The post-call states of the calls of `runSame d c ts`, in order. -/
def statesSame (d : State) (c : Bool) : List ℚ → List State
  | [] => []
  | t :: ts => update d t c :: statesSame (update d t c) c ts

/-- The post-call states when the raw sample alternates call by call,
the first call reading `c`. -/
def statesAlt (d : State) (c : Bool) : List ℚ → List State
  | [] => []
  | t :: ts => update d t c :: statesAlt (update d t c) (!c) ts

theorem land_lnot4_0 : Int.land 0 (Int.lnot 4) = 0 := by
  show (Nat.ldiff 0 4 : ℤ) = 0; norm_num [Nat.ldiff, Nat.bitwise]

theorem land_lnot4_1 : Int.land 1 (Int.lnot 4) = 1 := by
  show (Nat.ldiff 1 4 : ℤ) = 1; norm_num [Nat.ldiff, Nat.bitwise]

theorem land_lnot4_2 : Int.land 2 (Int.lnot 4) = 2 := by
  show (Nat.ldiff 2 4 : ℤ) = 2; norm_num [Nat.ldiff, Nat.bitwise]

theorem land_lnot4_3 : Int.land 3 (Int.lnot 4) = 3 := by
  show (Nat.ldiff 3 4 : ℤ) = 3; norm_num [Nat.ldiff, Nat.bitwise]

theorem land_lnot4_4 : Int.land 4 (Int.lnot 4) = 0 := by
  show (Nat.ldiff 4 4 : ℤ) = 0; norm_num [Nat.ldiff, Nat.bitwise]

theorem land_lnot4_5 : Int.land 5 (Int.lnot 4) = 1 := by
  show (Nat.ldiff 5 4 : ℤ) = 1; norm_num [Nat.ldiff, Nat.bitwise]

theorem land_lnot4_6 : Int.land 6 (Int.lnot 4) = 2 := by
  show (Nat.ldiff 6 4 : ℤ) = 2; norm_num [Nat.ldiff, Nat.bitwise]

theorem land_lnot4_7 : Int.land 7 (Int.lnot 4) = 3 := by
  show (Nat.ldiff 7 4 : ℤ) = 3; norm_num [Nat.ldiff, Nat.bitwise]

theorem stateOk_encode (de un ch : Bool) (pt iv : ℚ) :
    StateOk { state := encode de un ch, previous_time := pt, interval := iv } := by
  cases de <;> cases un <;> cases ch <;>
    exact ⟨by norm_num [encode], by norm_num [encode]⟩

theorem debouncedOf_encode (de un ch : Bool) (pt iv : ℚ) :
    debouncedOf { state := encode de un ch, previous_time := pt, interval := iv } = de := by
  cases de <;> cases un <;> cases ch <;> rfl

theorem unstableOf_encode (de un ch : Bool) (pt iv : ℚ) :
    unstableOf { state := encode de un ch, previous_time := pt, interval := iv } = un := by
  cases de <;> cases un <;> cases ch <;> rfl

theorem changedOf_encode (de un ch : Bool) (pt iv : ℚ) :
    changedOf { state := encode de un ch, previous_time := pt, interval := iv } = ch := by
  cases de <;> cases un <;> cases ch <;> rfl

theorem state_eq_encode (d : State) (hok : StateOk d) :
    d = { state := encode (debouncedOf d) (unstableOf d) (changedOf d),
          previous_time := d.previous_time, interval := d.interval } := by
  rcases d with ⟨s, pt, iv⟩
  obtain ⟨h0, h8⟩ := hok
  replace h0 : (0 : ℤ) ≤ s := h0
  replace h8 : s < 8 := h8
  have hs : s = 0 ∨ s = 1 ∨ s = 2 ∨ s = 3 ∨ s = 4 ∨ s = 5 ∨ s = 6 ∨ s = 7 := by omega
  simp only [State.mk.injEq, and_true, true_and]
  rcases hs with h|h|h|h|h|h|h|h <;> subst h <;>
    simp [debouncedOf, unstableOf, changedOf, getBits, encode,
      DEBOUNCED_STATE, UNSTABLE_STATE, CHANGED_STATE] <;> decide

theorem unsetBits_changed_encode (de un ch : Bool) (pt iv : ℚ) :
    unsetBits { state := encode de un ch, previous_time := pt, interval := iv } CHANGED_STATE =
      { state := encode de un false, previous_time := pt, interval := iv } := by
  cases de <;> cases un <;> cases ch <;>
    simp [unsetBits, CHANGED_STATE, encode, State.mk.injEq,
      land_lnot4_0, land_lnot4_1, land_lnot4_2, land_lnot4_3,
      land_lnot4_4, land_lnot4_5, land_lnot4_6, land_lnot4_7]



theorem toggleBits_unstable_encode (de un ch : Bool) (pt iv : ℚ) :
    toggleBits { state := encode de un ch, previous_time := pt, interval := iv } UNSTABLE_STATE =
      { state := encode de (!un) ch, previous_time := pt, interval := iv } := by
  cases de <;> cases un <;> cases ch <;>
    simp [toggleBits, UNSTABLE_STATE, encode, State.mk.injEq] <;> rfl

theorem set_toggle_debounced_encode (de un ch : Bool) (pt iv : ℚ) :
    setBits
      (toggleBits { state := encode de un ch, previous_time := pt, interval := iv }
        DEBOUNCED_STATE) CHANGED_STATE =
      { state := encode (!de) un true, previous_time := pt, interval := iv } := by
  cases de <;> cases un <;> cases ch <;>
    simp [setBits, toggleBits, DEBOUNCED_STATE, CHANGED_STATE, encode, State.mk.injEq] <;> rfl

theorem getBits_unstable_encode (de un ch : Bool) (pt iv : ℚ) :
    getBits { state := encode de un ch, previous_time := pt, interval := iv } UNSTABLE_STATE = un := by
  cases de <;> cases un <;> cases ch <;> rfl

theorem getBits_debounced_encode (de un ch : Bool) (pt iv : ℚ) :
    getBits { state := encode de un ch, previous_time := pt, interval := iv } DEBOUNCED_STATE = de := by
  cases de <;> cases un <;> cases ch <;> rfl

theorem getBits_changed_encode (de un ch : Bool) (pt iv : ℚ) :
    getBits { state := encode de un ch, previous_time := pt, interval := iv } CHANGED_STATE = ch := by
  cases de <;> cases un <;> cases ch <;> rfl

theorem value_encode (de un ch : Bool) (pt iv : ℚ) :
    value { state := encode de un ch, previous_time := pt, interval := iv } = de := by
  cases de <;> cases un <;> cases ch <;> rfl

theorem rose_encode (de un ch : Bool) (pt iv : ℚ) :
    rose { state := encode de un ch, previous_time := pt, interval := iv } = (de && ch) := by
  cases de <;> cases un <;> cases ch <;> rfl

theorem fell_encode (de un ch : Bool) (pt iv : ℚ) :
    fell { state := encode de un ch, previous_time := pt, interval := iv } = (!de && ch) := by
  cases de <;> cases un <;> cases ch <;> rfl

theorem init_eq_encode (sample : Bool) (interval? : Option ℚ) :
    init sample interval? =
      { state := encode sample sample false, previous_time := 0,
        interval := (init sample interval?).interval } := by
  cases sample <;> cases interval? <;> rfl

theorem init_interval_none (sample : Bool) : (init sample none).interval = 1 / 100 := by
  cases sample <;> rfl

theorem init_interval_some (sample : Bool) (iv : ℚ) : (init sample (some iv)).interval = iv := by
  cases sample <;> rfl

theorem init_previous_time (sample : Bool) (interval? : Option ℚ) :
    (init sample interval?).previous_time = 0 := by
  cases sample <;> cases interval? <;> rfl

theorem update_encode (de un ch : Bool) (pt iv : ℚ) (now : ℚ) (c : Bool) :
    update { state := encode de un ch, previous_time := pt, interval := iv } now c =
      if c ≠ un then
        { state := encode de c false, previous_time := now, interval := iv }
      else if now - pt ≥ iv ∧ c ≠ de then
        { state := encode c c true, previous_time := now, interval := iv }
      else
        { state := encode de un false, previous_time := pt, interval := iv } := by
  cases c <;> cases un <;> cases de <;>
    simp [update, unsetBits_changed_encode, getBits_unstable_encode,
      getBits_debounced_encode, toggleBits_unstable_encode, set_toggle_debounced_encode]

theorem stateOk_init (sample : Bool) (interval? : Option ℚ) :
    StateOk (init sample interval?) := by
  rw [init_eq_encode]
  exact stateOk_encode ..

theorem stateOk_update (d : State) (hok : StateOk d) (now : ℚ) (c : Bool) :
    StateOk (update d now c) := by
  rw [state_eq_encode d hok, update_encode]
  split_ifs <;> exact stateOk_encode ..

theorem update_of_ne_unstable (d : State) (hok : StateOk d) (now : ℚ) (c : Bool)
    (hc : c ≠ unstableOf d) :
    update d now c =
      { state := encode (debouncedOf d) c false, previous_time := now,
        interval := d.interval } := by
  conv_lhs => rw [state_eq_encode d hok]
  rw [update_encode, if_pos hc]

theorem update_accept (d : State) (hok : StateOk d) (now : ℚ) (c : Bool)
    (hc : c = unstableOf d) (ht : now - d.previous_time ≥ d.interval)
    (hd : c ≠ debouncedOf d) :
    update d now c =
      { state := encode c c true, previous_time := now, interval := d.interval } := by
  conv_lhs => rw [state_eq_encode d hok]
  rw [update_encode, if_neg (by simp [hc]), if_pos ⟨ht, hd⟩]

theorem update_reject (d : State) (hok : StateOk d) (now : ℚ) (c : Bool)
    (hc : c = unstableOf d) (hrej : ¬(now - d.previous_time ≥ d.interval ∧ c ≠ debouncedOf d)) :
    update d now c =
      { state := encode (debouncedOf d) (unstableOf d) false,
        previous_time := d.previous_time, interval := d.interval } := by
  conv_lhs => rw [state_eq_encode d hok]
  rw [update_encode, if_neg (by simp [hc]), if_neg hrej]

theorem update_steady_short (de un : Bool) (pt iv t : ℚ) (c : Bool) (hc : c = un)
    (ht : t - pt < iv) :
    update { state := encode de un false, previous_time := pt, interval := iv } t c =
      { state := encode de un false, previous_time := pt, interval := iv } := by
  rw [update_encode, if_neg (by simp [hc]), if_neg (fun h => absurd h.1 (not_le.2 ht))]

theorem runSame_steady_short (de un : Bool) (pt iv : ℚ) (c : Bool) (hc : c = un)
    (ts : List ℚ) (hts : ∀ t ∈ ts, t - pt < iv) :
    runSame { state := encode de un false, previous_time := pt, interval := iv } c ts =
      { state := encode de un false, previous_time := pt, interval := iv } := by
  induction ts with
  | nil => rfl
  | cons t ts ih =>
      rw [runSame, update_steady_short de un pt iv t c hc (hts t (by simp))]
      exact ih fun u hu => hts u (by simp [hu])

theorem statesSame_steady_short (de un : Bool) (pt iv : ℚ) (c : Bool) (hc : c = un)
    (ts : List ℚ) (hts : ∀ t ∈ ts, t - pt < iv) :
    ∀ s ∈ statesSame { state := encode de un false, previous_time := pt, interval := iv } c ts,
      s = { state := encode de un false, previous_time := pt, interval := iv } := by
  induction ts with
  | nil => intro s hs; simp [statesSame] at hs
  | cons t ts ih =>
      intro s hs
      rw [statesSame, update_steady_short de un pt iv t c hc (hts t (by simp))] at hs
      rcases List.mem_cons.1 hs with h | h
      · exact h
      · exact ih (fun u hu => hts u (by simp [hu])) s h

theorem update_agree (c ch : Bool) (pt iv t : ℚ) :
    update { state := encode c c ch, previous_time := pt, interval := iv } t c =
      { state := encode c c false, previous_time := pt, interval := iv } := by
  rw [update_encode, if_neg (by simp), if_neg (by simp)]

theorem statesSame_agree (c : Bool) (pt iv : ℚ) (ts : List ℚ) :
    ∀ (ch : Bool) (s : State),
      s ∈ statesSame { state := encode c c ch, previous_time := pt, interval := iv } c ts →
      s = { state := encode c c false, previous_time := pt, interval := iv } := by
  induction ts with
  | nil => intro ch s hs; simp [statesSame] at hs
  | cons t ts ih =>
      intro ch s hs
      rw [statesSame, update_agree c ch pt iv t] at hs
      rcases List.mem_cons.1 hs with h | h
      · exact h
      · exact ih false s h

theorem statesAlt_inv (b : Bool) (iv : ℚ) (ts : List ℚ) :
    ∀ (c un ch : Bool) (pt : ℚ), un = !c ∨ un = b →
      ∀ s ∈ statesAlt { state := encode b un ch, previous_time := pt, interval := iv } c ts,
        value s = b ∧ rose s = false ∧ fell s = false := by
  induction ts with
  | nil => intro c un ch pt _ s hs; simp [statesAlt] at hs
  | cons t ts ih =>
      intro c un ch pt hinv s hs
      by_cases hc : c = un
      · have hub : un = b := by
          rcases hinv with h | h
          · exact absurd (hc.trans h) (by cases c <;> simp)
          · exact h
        have hup :
            update { state := encode b un ch, previous_time := pt, interval := iv } t c =
              { state := encode b un false, previous_time := pt, interval := iv } := by
          rw [update_encode, if_neg (by simp [hc]),
            if_neg (by rintro ⟨-, h2⟩; exact h2 (hc.trans hub))]
        rw [statesAlt, hup] at hs
        rcases List.mem_cons.1 hs with h | h
        · subst h
          exact ⟨value_encode .., by simp [rose_encode], by simp [fell_encode]⟩
        · exact ih (!c) un false pt (Or.inl (by simp [hc])) s h
      · have hup :
            update { state := encode b un ch, previous_time := pt, interval := iv } t c =
              { state := encode b c false, previous_time := t, interval := iv } := by
          rw [update_encode, if_pos (by simp [hc])]
        rw [statesAlt, hup] at hs
        rcases List.mem_cons.1 hs with h | h
        · subst h
          exact ⟨value_encode .., by simp [rose_encode], by simp [fell_encode]⟩
        · exact ih (!c) c false t (Or.inl (by simp)) s h

theorem update_init_one_eq :
    update (init false (some 1)) 0 true =
      { state := encode false true false, previous_time := 0, interval := 1 } := by
  rw [show init false (some 1) =
      { state := encode false false false, previous_time := 0, interval := 1 } from rfl,
    update_encode]
  simp

theorem update_init_zero_eq :
    update (init false (some 0)) 3 true =
      { state := encode false true false, previous_time := 3, interval := 0 } := by
  rw [show init false (some 0) =
      { state := encode false false false, previous_time := 0, interval := 0 } from rfl,
    update_encode]
  simp

/-- C3: on any `update` call whose fresh raw sample differs from the stored
unstable flag, `previous_time` is set to `now`, the unstable flag becomes the
new sample, and the debounced flag is unchanged with the changed flag false:
the settle timer restarts on any raw change. -/
theorem timer_restart_on_any_raw_change (d : State) (hok : StateOk d) (now : ℚ) (c : Bool)
    (hc : c ≠ unstableOf d) :
    (update d now c).previous_time = now ∧
    unstableOf (update d now c) = c ∧
    debouncedOf (update d now c) = debouncedOf d ∧
    changedOf (update d now c) = false := by
  rw [update_of_ne_unstable d hok now c hc]
  exact ⟨rfl, unstableOf_encode .., debouncedOf_encode .., changedOf_encode ..⟩

/-- Witness for C3 at a concrete input. -/
theorem timer_restart_on_any_raw_change_witness :
    (update (init false (some 1)) 5 true).previous_time = 5 ∧
    unstableOf (update (init false (some 1)) 5 true) = true ∧
    debouncedOf (update (init false (some 1)) 5 true) = debouncedOf (init false (some 1)) ∧
    changedOf (update (init false (some 1)) 5 true) = false :=
  timer_restart_on_any_raw_change (init false (some 1)) (stateOk_init false (some 1))
    5 true (by decide)

/-- C4: on an `update` call whose fresh raw sample equals the stored unstable
flag, the transition is accepted exactly when the elapsed time reaches the
interval and the sample differs from the debounced flag; acceptance flips the
debounced flag, sets the changed flag and resets `previous_time`, otherwise
debounced flag and `previous_time` are unchanged and the changed flag is
false. -/
theorem acceptance_condition (d : State) (hok : StateOk d) (now : ℚ) (c : Bool)
    (hc : c = unstableOf d) :
    (now - d.previous_time ≥ d.interval ∧ c ≠ debouncedOf d →
      debouncedOf (update d now c) = c ∧ changedOf (update d now c) = true ∧
      (update d now c).previous_time = now) ∧
    (¬(now - d.previous_time ≥ d.interval ∧ c ≠ debouncedOf d) →
      debouncedOf (update d now c) = debouncedOf d ∧ changedOf (update d now c) = false ∧
      (update d now c).previous_time = d.previous_time) := by
  constructor
  · rintro ⟨ht, hd⟩
    rw [update_accept d hok now c hc ht hd]
    exact ⟨debouncedOf_encode .., changedOf_encode .., rfl⟩
  · intro hrej
    rw [update_reject d hok now c hc hrej]
    exact ⟨debouncedOf_encode .., changedOf_encode .., rfl⟩

/-- Witness for C4 at a concrete input. -/
theorem acceptance_condition_witness :
    ((1 : ℚ) - (update (init false (some 1)) 0 true).previous_time ≥
        (update (init false (some 1)) 0 true).interval ∧
      true ≠ debouncedOf (update (init false (some 1)) 0 true) →
      debouncedOf (update (update (init false (some 1)) 0 true) 1 true) = true ∧
      changedOf (update (update (init false (some 1)) 0 true) 1 true) = true ∧
      (update (update (init false (some 1)) 0 true) 1 true).previous_time = 1) ∧
    (¬((1 : ℚ) - (update (init false (some 1)) 0 true).previous_time ≥
        (update (init false (some 1)) 0 true).interval ∧
      true ≠ debouncedOf (update (init false (some 1)) 0 true)) →
      debouncedOf (update (update (init false (some 1)) 0 true) 1 true) =
        debouncedOf (update (init false (some 1)) 0 true) ∧
      changedOf (update (update (init false (some 1)) 0 true) 1 true) = false ∧
      (update (update (init false (some 1)) 0 true) 1 true).previous_time =
        (update (init false (some 1)) 0 true).previous_time) :=
  acceptance_condition (update (init false (some 1)) 0 true)
    (stateOk_update _ (stateOk_init false (some 1)) 0 true) 1 true
    (by rw [update_init_one_eq]; decide)

/-- C5: construction takes exactly one raw sample and seeds the debounced and
unstable flags with it, with the changed flag false, so `value` equals the
sample and `rose`/`fell` are false before any `update`. -/
theorem construction_seeding (sample : Bool) (interval? : Option ℚ) :
    debouncedOf (init sample interval?) = sample ∧
    unstableOf (init sample interval?) = sample ∧
    changedOf (init sample interval?) = false ∧
    value (init sample interval?) = sample ∧
    rose (init sample interval?) = false ∧
    fell (init sample interval?) = false := by
  cases sample <;> cases interval? <;> exact ⟨rfl, rfl, rfl, rfl, rfl, rfl⟩

/-- C8: after every `update` call on a well-formed state, the unstable flag
equals the raw sample read during that call. -/
theorem unstable_resynchronization (d : State) (hok : StateOk d) (now : ℚ) (c : Bool) :
    unstableOf (update d now c) = c := by
  by_cases hc : c = unstableOf d
  · by_cases hacc : now - d.previous_time ≥ d.interval ∧ c ≠ debouncedOf d
    · rw [update_accept d hok now c hc hacc.1 hacc.2, unstableOf_encode]
    · rw [update_reject d hok now c hc hacc, unstableOf_encode]; exact hc.symm
  · rw [update_of_ne_unstable d hok now c hc, unstableOf_encode]

/-- Witness for C8 at a concrete input. -/
theorem unstable_resynchronization_witness :
    unstableOf (update (init false (some 1)) 0 true) = true :=
  unstable_resynchronization (init false (some 1)) (stateOk_init false (some 1)) 0 true

/-- C9: the interval is not validated: any rational is stored unchanged, and
when the stored interval is zero or negative, an `update` whose sample matches
the unstable flag and differs from the debounced flag accepts the transition
as soon as the elapsed time is non-negative. -/
theorem degenerate_interval (d : State) (hok : StateOk d) (now : ℚ) (c : Bool)
    (hiv : d.interval ≤ 0) (hc : c = unstableOf d) (hd : c ≠ debouncedOf d)
    (hmono : d.previous_time ≤ now) :
    debouncedOf (update d now c) = c ∧ changedOf (update d now c) = true ∧
    ∀ iv : ℚ, (init c (some iv)).interval = iv := by
  have ht : now - d.previous_time ≥ d.interval := by linarith
  rw [update_accept d hok now c hc ht hd]
  exact ⟨debouncedOf_encode .., changedOf_encode .., fun iv => init_interval_some ..⟩

/-- Witness for C9 at a concrete input: interval zero, zero elapsed time. -/
theorem degenerate_interval_witness :
    debouncedOf (update (update (init false (some 0)) 3 true) 3 true) = true ∧
    changedOf (update (update (init false (some 0)) 3 true) 3 true) = true ∧
    ∀ iv : ℚ, (init true (some iv)).interval = iv :=
  degenerate_interval (update (init false (some 0)) 3 true)
    (stateOk_update _ (stateOk_init false (some 0)) 3 true) 3 true
    (by rw [update_init_zero_eq])
    (by rw [update_init_zero_eq]; decide)
    (by rw [update_init_zero_eq]; decide)
    (by rw [update_init_zero_eq])

/-- C10: in every state, `rose` and `fell` are never both true. -/
theorem edges_mutually_exclusive (d : State) : (rose d && fell d) = false := by
  rcases h : getBits d DEBOUNCED_STATE <;> simp [rose, fell, h]

/-- C6: `rose` returns the debounced flag AND the changed flag, `fell` returns
NOT the debounced flag AND the changed flag; equivalently, after an `update`
on a well-formed state, `rose` is true iff that call flipped the debounced
value to true, and `fell` is true iff it flipped it to false. -/
theorem edge_query_formulas (d : State) (hok : StateOk d) (now : ℚ) (c : Bool) :
    rose d = (debouncedOf d && changedOf d) ∧
    fell d = (!debouncedOf d && changedOf d) ∧
    (rose (update d now c) = true ↔
      debouncedOf d = false ∧ debouncedOf (update d now c) = true) ∧
    (fell (update d now c) = true ↔
      debouncedOf d = true ∧ debouncedOf (update d now c) = false) := by
  refine ⟨rfl, rfl, ?_, ?_⟩
  · by_cases hc : c = unstableOf d
    · by_cases hacc : now - d.previous_time ≥ d.interval ∧ c ≠ debouncedOf d
      · rw [update_accept d hok now c hc hacc.1 hacc.2, rose_encode, debouncedOf_encode]
        have h2 := hacc.2
        cases hd : debouncedOf d <;> rw [hd] at h2 <;> cases c <;> simp_all
      · rw [update_reject d hok now c hc hacc, rose_encode, debouncedOf_encode]
        cases hd : debouncedOf d <;> simp
    · rw [update_of_ne_unstable d hok now c hc, rose_encode, debouncedOf_encode]
      cases hd : debouncedOf d <;> simp
  · by_cases hc : c = unstableOf d
    · by_cases hacc : now - d.previous_time ≥ d.interval ∧ c ≠ debouncedOf d
      · rw [update_accept d hok now c hc hacc.1 hacc.2, fell_encode, debouncedOf_encode]
        have h2 := hacc.2
        cases hd : debouncedOf d <;> rw [hd] at h2 <;> cases c <;> simp_all
      · rw [update_reject d hok now c hc hacc, fell_encode, debouncedOf_encode]
        cases hd : debouncedOf d <;> simp
    · rw [update_of_ne_unstable d hok now c hc, fell_encode, debouncedOf_encode]
      cases hd : debouncedOf d <;> simp

/-- Witness for C6 at a concrete input. -/
theorem edge_query_formulas_witness :
    rose (init false (some 1)) =
      (debouncedOf (init false (some 1)) && changedOf (init false (some 1))) ∧
    fell (init false (some 1)) =
      (!debouncedOf (init false (some 1)) && changedOf (init false (some 1))) ∧
    (rose (update (init false (some 1)) 0 true) = true ↔
      debouncedOf (init false (some 1)) = false ∧
      debouncedOf (update (init false (some 1)) 0 true) = true) ∧
    (fell (update (init false (some 1)) 0 true) = true ↔
      debouncedOf (init false (some 1)) = true ∧
      debouncedOf (update (init false (some 1)) 0 true) = false) :=
  edge_query_formulas (init false (some 1)) (stateOk_init false (some 1)) 0 true

/-- C7: `update` clears the changed flag before anything else, so after an
`update` on a well-formed state the changed flag is true exactly when the
debounced flag flipped during that very call. -/
theorem changed_reset_invariant (d : State) (hok : StateOk d) (now : ℚ) (c : Bool) :
    changedOf (update d now c) = true ↔ debouncedOf (update d now c) ≠ debouncedOf d := by
  by_cases hc : c = unstableOf d
  · by_cases hacc : now - d.previous_time ≥ d.interval ∧ c ≠ debouncedOf d
    · rw [update_accept d hok now c hc hacc.1 hacc.2, changedOf_encode, debouncedOf_encode]
      simp [hacc.2]
    · rw [update_reject d hok now c hc hacc, changedOf_encode, debouncedOf_encode]
      simp
  · rw [update_of_ne_unstable d hok now c hc, changedOf_encode, debouncedOf_encode]
    simp

/-- Witness for C7 at a concrete input. -/
theorem changed_reset_invariant_witness :
    changedOf (update (init false (some 1)) 0 true) = true ↔
      debouncedOf (update (init false (some 1)) 0 true) ≠ debouncedOf (init false (some 1)) :=
  changed_reset_invariant (init false (some 1)) (stateOk_init false (some 1)) 0 true

/-- C1: starting from a settled well-formed state reading `b`, if the raw
sample changes to `c = !b` at the call at `t0` and holds steady, then every
call whose elapsed time since the change is below the interval leaves the
state untouched, the first call whose elapsed time reaches the interval flips
`value` to `c` with `rose`/`fell` reporting the direction on exactly that
call, and `rose`/`fell` are false with `value` still `c` on all subsequent
calls. -/
theorem settle_acceptance (d0 : State) (b c : Bool) (iv t0 tk : ℚ) (pre post : List ℚ)
    (hok : StateOk d0) (hun : unstableOf d0 = b) (hde : debouncedOf d0 = b)
    (hiv : d0.interval = iv) (hc : c = !b)
    (hpre : ∀ t ∈ pre, t - t0 < iv) (htk : iv ≤ tk - t0) :
    value (update d0 t0 c) = b ∧
    rose (update d0 t0 c) = false ∧
    fell (update d0 t0 c) = false ∧
    (∀ s ∈ statesSame (update d0 t0 c) c pre, s = update d0 t0 c) ∧
    value (update (runSame (update d0 t0 c) c pre) tk c) = c ∧
    rose (update (runSame (update d0 t0 c) c pre) tk c) = c ∧
    fell (update (runSame (update d0 t0 c) c pre) tk c) = !c ∧
    ∀ s ∈ statesSame (update (runSame (update d0 t0 c) c pre) tk c) c post,
      value s = c ∧ rose s = false ∧ fell s = false := by
  have hcb : c ≠ unstableOf d0 := by rw [hun, hc]; cases b <;> simp
  have h1 : update d0 t0 c =
      { state := encode b c false, previous_time := t0, interval := iv } := by
    rw [update_of_ne_unstable d0 hok t0 c hcb, hde, hiv]
  have h2 : runSame (update d0 t0 c) c pre =
      { state := encode b c false, previous_time := t0, interval := iv } := by
    rw [h1]
    exact runSame_steady_short b c t0 iv c rfl pre hpre
  have h4 : update (runSame (update d0 t0 c) c pre) tk c =
      { state := encode c c true, previous_time := tk, interval := iv } := by
    rw [h2, update_encode, if_neg (by simp),
      if_pos ⟨htk, by rw [hc]; cases b <;> simp⟩]
  refine ⟨?_, ?_, ?_, ?_, ?_, ?_, ?_, ?_⟩
  · rw [h1, value_encode]
  · rw [h1, rose_encode]; simp
  · rw [h1, fell_encode]; simp
  · intro s hs
    rw [h1] at hs ⊢
    exact statesSame_steady_short b c t0 iv c rfl pre hpre s hs
  · rw [h4, value_encode]
  · rw [h4, rose_encode]; simp
  · rw [h4, fell_encode]; simp
  · intro s hs
    rw [h4] at hs
    rw [statesSame_agree c tk iv post true s hs]
    exact ⟨value_encode .., by simp [rose_encode], by simp [fell_encode]⟩

/-- Witness for C1 at a concrete input: interval 1, change at time 0, a call
during the settle window at time 0, acceptance at time 1, a later call at
time 2. -/
theorem settle_acceptance_witness :
    value (update (init false (some 1)) 0 true) = false ∧
    rose (update (init false (some 1)) 0 true) = false ∧
    fell (update (init false (some 1)) 0 true) = false ∧
    (∀ s ∈ statesSame (update (init false (some 1)) 0 true) true [0],
      s = update (init false (some 1)) 0 true) ∧
    value (update (runSame (update (init false (some 1)) 0 true) true [0]) 1 true) = true ∧
    rose (update (runSame (update (init false (some 1)) 0 true) true [0]) 1 true) = true ∧
    fell (update (runSame (update (init false (some 1)) 0 true) true [0]) 1 true) = !true ∧
    ∀ s ∈ statesSame
        (update (runSame (update (init false (some 1)) 0 true) true [0]) 1 true) true [2],
      value s = true ∧ rose s = false ∧ fell s = false :=
  settle_acceptance (init false (some 1)) false true 1 0 1 [0] [2]
    (stateOk_init false (some 1)) (by decide) (by decide) (by decide) (by decide)
    (by norm_num) (by norm_num)

/-- C2: starting from a settled well-formed state reading `b`, if the raw
samples alternate call by call with less than the interval elapsing between
consecutive calls, the debounced value never changes and `rose`/`fell` are
false after every call. -/
theorem bounce_rejection (d0 : State) (b c : Bool) (ts : List ℚ)
    (hok : StateOk d0) (hun : unstableOf d0 = b) (hde : debouncedOf d0 = b)
    (hgap : List.Chain' (fun t1 t2 => t1 ≤ t2 ∧ t2 - t1 < d0.interval) ts) :
    ∀ s ∈ statesAlt d0 c ts, value s = b ∧ rose s = false ∧ fell s = false := by
  intro s hs
  have h0 : d0 =
      { state := encode b b (changedOf d0), previous_time := d0.previous_time,
        interval := d0.interval } := by
    conv_lhs => rw [state_eq_encode d0 hok]
    rw [hun, hde]
  rw [h0] at hs
  exact statesAlt_inv b d0.interval ts c b (changedOf d0) d0.previous_time (Or.inr rfl) s hs

/-- Witness for C2 at a concrete input: interval 10, alternating samples at
times 0, 1, 2, evaluated at the state after the second call. -/
theorem bounce_rejection_witness :
    value (update (update (init false (some 10)) 0 true) 1 false) = false ∧
    rose (update (update (init false (some 10)) 0 true) 1 false) = false ∧
    fell (update (update (init false (some 10)) 0 true) 1 false) = false :=
  bounce_rejection (init false (some 10)) false true [0, 1, 2]
    (stateOk_init false (some 10)) (by decide) (by decide)
    (by rw [init_interval_some]; norm_num [List.chain'_cons])
    (update (update (init false (some 10)) 0 true) 1 false)
    (by simp [statesAlt])

end Debouncer
